import Mathlib

/-!
Verification of the rivet CLI core (agent orchestration, extraction,
JSON recovery, PR payload validation, refinement loop) against its
natural-language specification.  The definitions below are shallow
embeddings of the TypeScript sources in src/: pure functions become Lean
functions, the interactive loop becomes a recursion over explicit input
streams, and the stderr-suppression scopes become explicit state passing.
-/

set_option maxRecDepth 10000

namespace Rivet

/-! ## Data model (src/types.ts)

`ConversationTurn` mirrors
  type ConversationTurn = { type: string; turn?: { steps?: Array<{ type: string; message?: { text?: string } }> } }
with every optional field an `Option`. -/

structure TextMessage where
  text : Option String
deriving DecidableEq

structure ConvStep where
  type : String
  message : Option TextMessage
deriving DecidableEq

structure TurnData where
  steps : Option (List ConvStep)
deriving DecidableEq

structure ConversationTurn where
  type : String
  turn : Option TurnData
deriving DecidableEq

/-! ## JavaScript string helpers

JS whitespace (the `\s` character class and the set trimmed by
`String.prototype.trim`): tab, LF, VT, FF, CR, space, NBSP, Ogham space,
the U+2000..U+200A range, LS, PS, NNBSP, MMSP, ideographic space, BOM. -/

def isJsWs (c : Char) : Bool :=
  c = Char.ofNat 9 || c = Char.ofNat 10 || c = Char.ofNat 11 || c = Char.ofNat 12 ||
  c = Char.ofNat 13 || c = Char.ofNat 32 || c = Char.ofNat 160 || c = Char.ofNat 5760 ||
  (decide (8192 ≤ c.toNat) && decide (c.toNat ≤ 8202)) ||
  c = Char.ofNat 8232 || c = Char.ofNat 8233 || c = Char.ofNat 8239 ||
  c = Char.ofNat 8287 || c = Char.ofNat 12288 || c = Char.ofNat 65279

/-- Embedding of JavaScript `String.prototype.trim`. -/
def jsTrim (s : String) : String :=
  String.mk (((s.data.dropWhile isJsWs).reverse.dropWhile isJsWs).reverse)

/-- Embedding of JavaScript `a || b` on strings (empty string is falsy). -/
def jsOrS (a b : String) : String := if a = "" then b else a

/-! ## Extractor (src/agent.ts, extractLastAssistantMessage) -/

/-- The text carried by a step, with absent message or text read as `""`
(mirrors `step.message?.text?.trim() ?? ""` before the trim). -/
def stepText (s : ConvStep) : String := (s.message.bind TextMessage.text).getD ""

/-- JS truthiness of `step.message?.text` (absent or empty string is falsy). -/
def truthyStepText (s : ConvStep) : Bool :=
  match s.message with
  | some m =>
    match m.text with
    | some t => !(t == "")
    | none => false
  | none => false

/-- The reversed step list contributed by one turn:
`turn.type === "agentConversationTurn" && turn.turn?.steps ? [...turn.turn.steps].reverse() : []`. -/
def turnStepsRev (t : ConversationTurn) : List ConvStep :=
  if t.type == "agentConversationTurn" then ((t.turn.bind TurnData.steps).getD []).reverse
  else []

/-- Embedding of `extractLastAssistantMessage` (src/agent.ts lines 103-114):
reverse the turns, flat-map each conversation turn to its reversed steps,
keep assistant-message steps with truthy text, trim, and take the first
trimmed text of positive length (`?? null` becomes the `Option`). -/
def extractLastAssistantMessage (conversation : List ConversationTurn) : Option String :=
  ((((conversation.reverse.map turnStepsRev).flatten).filter
      (fun s => s.type == "assistantMessage" && truthyStepText s)).map
      (fun s => jsTrim (stepText s))).find? (fun t => decide (0 < t.length))

/-- Formalisation of the claim's description of the Extractor: per turn of
kind `"agentConversationTurn"`, scanned newest-to-oldest, collect from its
steps, newest-to-oldest, the trimmed texts of steps of kind
`"assistantMessage"` whose text is non-empty after trimming; the result is
the first such candidate, absence otherwise. -/
def turnCandidates (t : ConversationTurn) : List String :=
  if t.type == "agentConversationTurn" then
    ((t.turn.bind TurnData.steps).getD []).reverse.filterMap
      (fun s =>
        if s.type == "assistantMessage" && !(jsTrim (stepText s) == "") then
          some (jsTrim (stepText s))
        else none)
  else []

def extractLastAssistantMessageSpec (conversation : List ConversationTurn) : Option String :=
  ((conversation.reverse.map turnCandidates).flatten).head?

/-! ## String facts used to relate the filter/map/find pipeline to the claim -/

theorem length_pos_iff (s : String) : 0 < s.length ↔ ¬ s = "" := by
  cases s with
  | mk l =>
    cases l with
    | nil => exact ⟨fun h => absurd h (by decide), fun h => absurd (by decide) h⟩
    | cons c cs =>
      constructor
      · intro _ h
        have h2 := congrArg String.length h
        have h3 : String.length "" = 0 := rfl
        have h4 : String.length (String.mk (c :: cs)) = cs.length + 1 := rfl
        rw [h3, h4] at h2
        exact Nat.succ_ne_zero _ h2
      · intro _
        have h4 : String.length (String.mk (c :: cs)) = cs.length + 1 := rfl
        rw [h4]
        exact Nat.succ_pos _

theorem jsTrim_empty : jsTrim "" = "" := rfl

theorem decide_length_pos (t : String) : decide (0 < t.length) = !(t == "") := by
  by_cases h : t = ""
  · subst h; decide
  · have h1 : 0 < t.length := (length_pos_iff t).2 h
    simp [h1, h]

/-- The selection made by the source's filter-then-find pipeline on a single
step agrees with the claim's per-step condition. -/
theorem step_g_eq (s : ConvStep) :
    (if s.type == "assistantMessage" && !(jsTrim (stepText s) == "") then
       some (jsTrim (stepText s)) else none)
      = if (s.type == "assistantMessage" && truthyStepText s) &&
           decide (0 < (jsTrim (stepText s)).length) then
          some (jsTrim (stepText s)) else none := by
  rw [decide_length_pos]
  rcases s with ⟨ty, msg⟩
  rcases msg with _ | ⟨txt⟩
  · simp [stepText, truthyStepText, jsTrim_empty]
  · rcases txt with ⟨_ | t⟩
    · simp [stepText, truthyStepText, jsTrim_empty]
    · by_cases ht : t = ""
      · subst ht; simp [stepText, truthyStepText, jsTrim_empty]
      · simp [stepText, truthyStepText, ht]

theorem find_filter_map_eq {α β : Type} (p : α → Bool) (f : α → β) (q : β → Bool)
    (g : α → Option β)
    (hg : ∀ a, g a = if p a && q (f a) then some (f a) else none)
    (l : List α) : ((l.filter p).map f).find? q = (l.filterMap g).head? := by
  induction l with
  | nil => rfl
  | cons a l ih =>
    rw [List.filter_cons, List.filterMap_cons, hg a]
    cases hpa : p a
    · simpa [hpa] using ih
    · cases hqa : q (f a)
      · simpa [hpa, hqa, List.find?_cons] using ih
      · simp [hpa, hqa, List.find?_cons]

theorem find_flatten_eq {α β : Type} (p : α → Bool) (f : α → β) (q : β → Bool)
    (g : α → Option β)
    (hg : ∀ a, g a = if p a && q (f a) then some (f a) else none)
    (ls : List (List α)) :
    ((ls.flatten.filter p).map f).find? q = (ls.map (fun l => l.filterMap g)).flatten.head? := by
  induction ls with
  | nil => rfl
  | cons l ls ih =>
    rw [List.flatten_cons, List.filter_append, List.map_append, List.find?_append,
      List.map_cons, List.flatten_cons, List.head?_append,
      find_filter_map_eq p f q g hg l, ih]

theorem turnCandidates_eq (t : ConversationTurn) :
    (turnStepsRev t).filterMap
      (fun s =>
        if s.type == "assistantMessage" && !(jsTrim (stepText s) == "") then
          some (jsTrim (stepText s))
        else none)
      = turnCandidates t := by
  unfold turnStepsRev turnCandidates
  cases h : (t.type == "agentConversationTurn") <;> simp [h]

/-- C1: for every finite sequence of conversation turns, with turn lists,
step lists and message text each possibly absent, `extractLastAssistantMessage`
returns the whitespace-trimmed text of the most recent step whose enclosing
turn has kind `"agentConversationTurn"`, whose own kind is
`"assistantMessage"`, and whose text is non-empty after trimming — turns
scanned newest-to-oldest and steps within a turn newest-to-oldest — and
returns the absence marker when no such step exists (including when all
candidate texts are whitespace-only or when any list is absent); the
function is total, so it never errors. -/
theorem C1_extractor_correct (conversation : List ConversationTurn) :
    extractLastAssistantMessage conversation = extractLastAssistantMessageSpec conversation := by
  unfold extractLastAssistantMessage extractLastAssistantMessageSpec
  rw [find_flatten_eq (fun s => s.type == "assistantMessage" && truthyStepText s)
      (fun s => jsTrim (stepText s)) (fun t => decide (0 < t.length))
      (fun s =>
        if s.type == "assistantMessage" && !(jsTrim (stepText s) == "") then
          some (jsTrim (stepText s))
        else none)
      (fun s => step_g_eq s) (conversation.reverse.map turnStepsRev)]
  rw [List.map_map]
  congr 1
  congr 1
  apply List.map_congr_left
  intro t _
  exact turnCandidates_eq t

/-! ## Analysis turn (src/agent.ts, analyzeChanges) -/

/-- The onStep capture of `analyzeChanges`: the callback overwrites the
`summary` variable with the trimmed text of every assistant-message step
whose text is truthy, so the final capture is a left fold over the step
events delivered to `onStep`, starting from the empty string. -/
def analysisOnStepCapture (firedSteps : List ConvStep) : String :=
  firedSteps.foldl
    (fun summary s =>
      if s.type == "assistantMessage" then
        match s.message with
        | some m =>
          match m.text with
          | some t => if !(t == "") then jsTrim t else summary
          | none => summary
        | none => summary
      else summary) ""

/-- Embedding of `analyzeChanges` (src/agent.ts lines 41-100) after the
conversation await completes normally: `firedSteps` are the step events
delivered to `onStep`, the second argument is the completed conversation.
The source throws when the capture is empty and returns the capture
otherwise; the completed conversation is never consulted. -/
def analyzeChanges (firedSteps : List ConvStep)
    (_conversation : List ConversationTurn) : Except String String :=
  let summary := analysisOnStepCapture firedSteps
  if summary = "" then Except.error "Failed to get analysis from agent"
  else Except.ok summary

/-- C2 counterexample: with an empty onStep capture (the callback never
fired) and a completed conversation holding one turn with one
assistant-message step "Refactor auth flow", `analyzeChanges` fails with the
empty-analysis error even though the Extractor applied to the same
conversation finds exactly that text — the analysis turn has no Extractor
fallback, contrary to the claim. -/
theorem C2_counterexample :
    analyzeChanges []
        [⟨"agentConversationTurn",
          some ⟨some [⟨"assistantMessage", some ⟨some "Refactor auth flow"⟩⟩]⟩⟩]
        = Except.error "Failed to get analysis from agent" ∧
      extractLastAssistantMessage
        [⟨"agentConversationTurn",
          some ⟨some [⟨"assistantMessage", some ⟨some "Refactor auth flow"⟩⟩]⟩⟩]
        = some "Refactor auth flow" :=
  ⟨rfl, by decide⟩

/-- C2 (amended): the analysis turn has no Extractor fallback —
`analyzeChanges` returns the onStep capture when it is non-empty and fails
with the empty-analysis error when the capture is empty, regardless of the
contents of the completed conversation. -/
theorem C2_analysis_no_fallback (firedSteps : List ConvStep)
    (conversation : List ConversationTurn) :
    (analysisOnStepCapture firedSteps = "" →
      analyzeChanges firedSteps conversation
        = Except.error "Failed to get analysis from agent") ∧
    (¬ analysisOnStepCapture firedSteps = "" →
      analyzeChanges firedSteps conversation
        = Except.ok (analysisOnStepCapture firedSteps)) := by
  constructor <;> intro h <;> simp [analyzeChanges, h]

theorem C2_analysis_no_fallback_witness :
    analyzeChanges [] [] = Except.error "Failed to get analysis from agent" ∧
    analyzeChanges [⟨"assistantMessage", some ⟨some "ok"⟩⟩] [] = Except.ok "ok" :=
  ⟨(C2_analysis_no_fallback [] []).1 (by decide),
   ((C2_analysis_no_fallback [⟨"assistantMessage", some ⟨some "ok"⟩⟩] []).2
       (by decide)).trans (congrArg Except.ok (by decide))⟩

/-! ## Stderr suppression scopes (src/agent.ts) -/

/-- The diagnostic sink: either the original stderr writer or the silencing
writer installed for the duration of a suppression scope. -/
inductive Sink
  | original
  | silenced
deriving DecidableEq

/-- Embedding of `withSuppressedStderr` (src/agent.ts lines 30-38): save the
current writer, install the silencer, run the operation inside `try`, and
restore the saved writer in `finally` — the saved writer is reinstalled on
both the normal and the throwing path before the outcome propagates. -/
def withSuppressedStderr {A E : Type} (op : Except E A) (s0 : Sink) : Sink × Except E A :=
  let originalStderr := s0
  match op with
  | Except.ok a => (originalStderr, Except.ok a)
  | Except.error e => (originalStderr, Except.error e)

/-- Embedding of the inline suppression in `analyzeChanges`
(src/agent.ts lines 90-93): save the writer, install the silencer, await
the conversation, then restore.  There is no `try`/`finally`: when the
await throws, the restore statement after it never runs, so the silencer
stays installed while the error propagates. -/
def analyzeChangesSuppression {A E : Type} (op : Except E A) (s0 : Sink) : Sink × Except E A :=
  let originalStderr := s0
  match op with
  | Except.ok a => (originalStderr, Except.ok a)
  | Except.error e => (Sink.silenced, Except.error e)

/-- C3: `withSuppressedStderr` restores the original sink on both exit
paths, and the inline suppression in `analyzeChanges` restores it on the
normal path, but NOT on the throwing path: when the awaited conversation
rejects while the original sink is active, the sink is left silenced.  The
last conjuncts evaluate the code at that failing input. -/
theorem C3_suppression_restore :
    (∀ (s0 : Sink) (a e : Nat),
        (withSuppressedStderr (Except.ok a : Except Nat Nat) s0).1 = s0 ∧
        (withSuppressedStderr (Except.error e : Except Nat Nat) s0).1 = s0 ∧
        (analyzeChangesSuppression (Except.ok a : Except Nat Nat) s0).1 = s0) ∧
      (analyzeChangesSuppression (Except.error 0 : Except Nat Nat) Sink.original).1
        = Sink.silenced ∧
      ¬ (analyzeChangesSuppression (Except.error 0 : Except Nat Nat) Sink.original).1
        = Sink.original := by
  exact ⟨fun s0 a e => ⟨rfl, rfl, rfl⟩, rfl, by decide⟩

/-! ## JSON recovery (src/commands/pr.ts, extractJson)

The two regular expressions are embedded as explicit backtracking matchers
over character lists.  `bq` is the backquote, `lb`/`rb` the curly braces. -/

def bq : Char := Char.ofNat 96

def lb : Char := Char.ofNat 123

def rb : Char := Char.ofNat 125

def skipJsWs (cs : List Char) : List Char := cs.dropWhile isJsWs

/-- The regex tail after a candidate closing brace: `\s*` followed by three
backquotes (deterministic: no whitespace character is a backquote). -/
def fenceAfter (cs : List Char) : Bool :=
  match skipJsWs cs with
  | c1 :: c2 :: c3 :: _ => c1 == bq && c2 == bq && c3 == bq
  | _ => false

/-- Greedy group end for the fenced pattern: split `ds` (the characters
after the opening brace) as `body ++ rb :: rest` at the rightmost closing
brace whose `rest` satisfies `fenceAfter` — the backtracking engine tries
the longest body first. -/
def lastCloseSplit (ds : List Char) : Option (List Char × List Char) :=
  match ds with
  | [] => none
  | d :: ds' =>
    match lastCloseSplit ds' with
    | some (body, rest) => some (d :: body, rest)
    | none => if d == rb && fenceAfter ds' then some ([], ds') else none

/-- The optional literal "json" of the fenced regex: consume it when
present (the greedy attempt), keep the input otherwise — the discarded
branch never has to be retried because a skipped "json" can never begin
the whitespace-then-brace tail. -/
def stripJson (rest : List Char) : List Char :=
  match rest with
  | j :: s :: o :: n :: r =>
    if j == 'j' && s == 's' && o == 'o' && n == 'n' then r else rest
  | _ => rest

/-- One anchored attempt of the fenced regex at the start of `cs`: three
backquotes, the optional literal "json", `\s*`, then the brace group.  The
`\s*` needs no backtracking because no whitespace character is a brace. -/
def matchFencedAt (cs : List Char) : Option (List Char) :=
  match cs with
  | c1 :: c2 :: c3 :: rest =>
    if c1 == bq && c2 == bq && c3 == bq then
      match skipJsWs (stripJson rest) with
      | b :: ds =>
        if b == lb then
          match lastCloseSplit ds with
          | some (body, _) => some (lb :: body ++ [rb])
          | none => none
        else none
      | [] => none
    else none
  | _ => none

/-- Leftmost match of the fenced regex: try each start position in order. -/
def scanFenced : List Char → Option (List Char)
  | [] => none
  | c :: cs =>
    match matchFencedAt (c :: cs) with
    | some g => some g
    | none => scanFenced cs

/-- The characters after the first left brace, if any. -/
def afterFirstLb : List Char → Option (List Char)
  | [] => none
  | c :: cs => if c == lb then some cs else afterFirstLb cs

/-- Greedy group end for the unfenced pattern: the longest body before a
closing brace, i.e. everything up to the rightmost right brace. -/
def greedyClose (ds : List Char) : Option (List Char) :=
  match ds with
  | [] => none
  | d :: ds' =>
    match greedyClose ds' with
    | some body => some (d :: body)
    | none => if d == rb then some [] else none

/-- The unfenced regex: a left brace, anything, a right brace — leftmost
start (the first left brace), greedy end (the last right brace). -/
def directMatch (cs : List Char) : Option (List Char) :=
  (afterFirstLb cs).bind fun ds => (greedyClose ds).map fun body => lb :: body ++ [rb]

/-- Embedding of `extractJson` (src/commands/pr.ts lines 209-215): first
the fenced code-block regex, then the direct brace regex, and finally the
original text unchanged. -/
def extractJson (text : String) : String :=
  match scanFenced text.data with
  | some g => String.mk g
  | none =>
    match directMatch text.data with
    | some g => String.mk g
    | none => text

theorem extractJson_mk (l : List Char) :
    extractJson (String.mk l)
      = match scanFenced l with
        | some g => String.mk g
        | none =>
          match directMatch l with
          | some g => String.mk g
          | none => String.mk l := rfl

/-! ## Facts about the fenced matcher -/

theorem matchFencedAt_cons_none {c : Char} {cs : List Char} (h : ¬ c = bq) :
    matchFencedAt (c :: cs) = none := by
  match cs with
  | [] => rfl
  | [_] => rfl
  | c2 :: c3 :: rest => simp [matchFencedAt, h]

theorem scanFenced_append_none {pre rest : List Char} (h : ∀ c ∈ pre, ¬ c = bq) :
    scanFenced (pre ++ rest) = scanFenced rest := by
  induction pre with
  | nil => rfl
  | cons c pre ih =>
    have hc : ¬ c = bq := h c (List.mem_cons_self c pre)
    have hrest : ∀ x ∈ pre, ¬ x = bq := fun x hx => h x (List.mem_cons_of_mem c hx)
    rw [List.cons_append, scanFenced, matchFencedAt_cons_none hc]
    exact ih hrest

theorem scanFenced_cons_of_some {c : Char} {cs g : List Char}
    (h : matchFencedAt (c :: cs) = some g) : scanFenced (c :: cs) = some g := by
  rw [scanFenced, h]

theorem fenceAfter_false_of_noBq {cs : List Char} (h : ∀ c ∈ cs, ¬ c = bq) :
    fenceAfter cs = false := by
  have hsub : ∀ c ∈ skipJsWs cs, ¬ c = bq := fun c hc =>
    h c ((List.dropWhile_sublist isJsWs).subset hc)
  unfold fenceAfter
  cases hd : skipJsWs cs with
  | nil => rfl
  | cons c1 tl =>
    cases tl with
    | nil => rfl
    | cons c2 tl2 =>
      cases tl2 with
      | nil => rfl
      | cons c3 tl3 =>
        have h1 : ¬ c1 = bq := by
          apply hsub
          rw [hd]
          exact List.mem_cons_self _ _
        simp [h1]

theorem lastCloseSplit_none_of_noBq {ds : List Char} (h : ∀ c ∈ ds, ¬ c = bq) :
    lastCloseSplit ds = none := by
  induction ds with
  | nil => rfl
  | cons d ds ih =>
    have hds : ∀ c ∈ ds, ¬ c = bq := fun c hc => h c (List.mem_cons_of_mem d hc)
    simp [lastCloseSplit, ih hds, fenceAfter_false_of_noBq hds]

theorem lastCloseSplit_cons_none {d : Char} {ds : List Char}
    (h1 : lastCloseSplit ds = none) (h2 : (d == rb && fenceAfter ds) = false) :
    lastCloseSplit (d :: ds) = none := by
  simp [lastCloseSplit, h1, h2]

theorem lastCloseSplit_fence_prepend {post : List Char} (hpost : ∀ c ∈ post, ¬ c = bq) :
    lastCloseSplit (bq :: bq :: bq :: post) = none := by
  have h0 : lastCloseSplit post = none := lastCloseSplit_none_of_noBq hpost
  have hb : (bq == rb) = false := by decide
  exact lastCloseSplit_cons_none
    (lastCloseSplit_cons_none (lastCloseSplit_cons_none h0 (by simp [hb]))
      (by simp [hb])) (by simp [hb])

theorem lastCloseSplit_ws_prepend {ws rest : List Char}
    (hws : ∀ c ∈ ws, isJsWs c = true) (h0 : lastCloseSplit rest = none) :
    lastCloseSplit (ws ++ rest) = none := by
  induction ws with
  | nil => simpa using h0
  | cons c ws ih =>
    have hc : isJsWs c = true := hws c (List.mem_cons_self _ _)
    have hcr : (c == rb) = false := by
      have hne : ¬ c = rb := by
        intro he
        subst he
        exact absurd hc (by decide)
      simp [hne]
    rw [List.cons_append]
    exact lastCloseSplit_cons_none
      (ih fun x hx => hws x (List.mem_cons_of_mem _ hx)) (by simp [hcr])

theorem lastCloseSplit_main {mid rest : List Char}
    (hfence : fenceAfter rest = true) (hnone : lastCloseSplit rest = none) :
    lastCloseSplit (mid ++ rb :: rest) = some (mid, rest) := by
  induction mid with
  | nil => simp [lastCloseSplit, hnone, hfence]
  | cons d mid ih => simp [List.cons_append, lastCloseSplit, ih]

theorem skipJsWs_ws_append {ws rest : List Char} (hws : ∀ c ∈ ws, isJsWs c = true) :
    skipJsWs (ws ++ rest) = skipJsWs rest := by
  induction ws with
  | nil => rfl
  | cons c ws ih =>
    have hc := hws c (List.mem_cons_self _ _)
    have ih2 := ih (fun x hx => hws x (List.mem_cons_of_mem _ hx))
    simp only [skipJsWs, List.cons_append, List.dropWhile_cons, hc, if_true]
    exact ih2

theorem skipJsWs_not_ws {c : Char} (cs : List Char) (hc : isJsWs c = false) :
    skipJsWs (c :: cs) = c :: cs := by
  simp [skipJsWs, List.dropWhile_cons, hc]

theorem fenceAfter_ws_fence {ws post : List Char} (hws : ∀ c ∈ ws, isJsWs c = true) :
    fenceAfter (ws ++ bq :: bq :: bq :: post) = true := by
  unfold fenceAfter
  rw [show skipJsWs (ws ++ bq :: bq :: bq :: post) = bq :: bq :: bq :: post from
    (skipJsWs_ws_append hws).trans (skipJsWs_not_ws _ (by decide))]
  simp

theorem stripJson_id {rest : List Char} (h : ∀ c cs, rest = c :: cs → ¬ c = 'j') :
    stripJson rest = rest := by
  match rest with
  | [] => rfl
  | [a] => rfl
  | [a, b] => rfl
  | [a, b, c] => rfl
  | a :: b :: c :: d :: r =>
    have ha : ¬ a = 'j' := h a _ rfl
    simp [stripJson, ha]

theorem matchFencedAt_exact (useJson : Bool) (ws1 mid ws2 post : List Char)
    (hws1 : ∀ c ∈ ws1, isJsWs c = true) (hws2 : ∀ c ∈ ws2, isJsWs c = true)
    (hpost : ∀ c ∈ post, ¬ c = bq) :
    matchFencedAt (bq :: bq :: bq ::
        ((if useJson then ['j', 's', 'o', 'n'] else []) ++
          (ws1 ++ lb :: (mid ++ rb :: (ws2 ++ bq :: bq :: bq :: post)))))
      = some (lb :: (mid ++ [rb])) := by
  have hskip : skipJsWs (ws1 ++ lb :: (mid ++ rb :: (ws2 ++ bq :: bq :: bq :: post)))
      = lb :: (mid ++ rb :: (ws2 ++ bq :: bq :: bq :: post)) :=
    (skipJsWs_ws_append hws1).trans (skipJsWs_not_ws _ (by decide))
  have hclose : lastCloseSplit (mid ++ rb :: (ws2 ++ bq :: bq :: bq :: post))
      = some (mid, ws2 ++ bq :: bq :: bq :: post) :=
    lastCloseSplit_main (fenceAfter_ws_fence hws2)
      (lastCloseSplit_ws_prepend hws2 (lastCloseSplit_fence_prepend hpost))
  have hstrip : stripJson ((if useJson then ['j', 's', 'o', 'n'] else []) ++
      (ws1 ++ lb :: (mid ++ rb :: (ws2 ++ bq :: bq :: bq :: post))))
      = ws1 ++ lb :: (mid ++ rb :: (ws2 ++ bq :: bq :: bq :: post)) := by
    cases useJson with
    | true => simp [stripJson]
    | false =>
      simp only [Bool.false_eq_true, if_false, List.nil_append]
      apply stripJson_id
      intro c cs hc
      cases ws1 with
      | nil =>
        rw [List.nil_append] at hc
        have : c = lb := (List.cons.injEq _ _ _ _ ▸ hc).1.symm
        rw [this]
        decide
      | cons w ws1' =>
        rw [List.cons_append] at hc
        have hcw : c = w := ((List.cons.injEq _ _ _ _ ▸ hc).1).symm
        have hw : isJsWs w = true := hws1 w (List.mem_cons_self _ _)
        rw [hcw]
        intro he
        subst he
        exact absurd hw (by decide)
  simp only [matchFencedAt, hstrip, hskip, hclose]
  simp

/-- C4 counterexample: a text holding two fenced json blocks, each with a
balanced brace-delimited object inside.  The greedy fenced regex matches
from the first block's opening brace to the second block's closing brace,
so `extractJson` returns neither object's source text, refuting the claim
at this input. -/
theorem C4_counterexample :
    extractJson "```json\n\x7b\"a\":1\x7d\n``` and ```json\n\x7b\"b\":2\x7d\n```"
        = "\x7b\"a\":1\x7d\n``` and ```json\n\x7b\"b\":2\x7d" ∧
      ¬ extractJson "```json\n\x7b\"a\":1\x7d\n``` and ```json\n\x7b\"b\":2\x7d\n```"
        = "\x7b\"a\":1\x7d" ∧
      ¬ extractJson "```json\n\x7b\"a\":1\x7d\n``` and ```json\n\x7b\"b\":2\x7d\n```"
        = "\x7b\"b\":2\x7d" :=
  ⟨by decide, by decide, by decide⟩

/-- C4 (amended): for every input text of the shape
prefix, fence opener (three backquotes with an optional "json" marker),
whitespace, a brace-delimited span, whitespace, fence closer, suffix —
where the prefix and the suffix contain no backquote — `extractJson`
returns exactly the brace-delimited interior of that (unique) fence. -/
theorem C4_fenced_block_extraction (useJson : Bool) (pre ws1 mid ws2 post : List Char)
    (hpre : ∀ c ∈ pre, ¬ c = bq) (hws1 : ∀ c ∈ ws1, isJsWs c = true)
    (hws2 : ∀ c ∈ ws2, isJsWs c = true) (hpost : ∀ c ∈ post, ¬ c = bq) :
    extractJson (String.mk (pre ++ bq :: bq :: bq ::
        ((if useJson then ['j', 's', 'o', 'n'] else []) ++
          (ws1 ++ lb :: (mid ++ rb :: (ws2 ++ bq :: bq :: bq :: post))))))
      = String.mk (lb :: (mid ++ [rb])) := by
  rw [extractJson_mk, scanFenced_append_none hpre,
    scanFenced_cons_of_some (matchFencedAt_exact useJson ws1 mid ws2 post hws1 hws2 hpost)]

theorem C4_fenced_block_extraction_witness :
    extractJson (String.mk ("Sure: ".data ++ bq :: bq :: bq ::
        (['j', 's', 'o', 'n'] ++
          ("\n".data ++ lb :: ("\"a\":1".data ++ rb :: ("\n".data ++ bq :: bq :: bq :: " done".data))))))
      = String.mk (lb :: ("\"a\":1".data ++ [rb])) :=
  C4_fenced_block_extraction true "Sure: ".data "\n".data "\"a\":1".data "\n".data
    " done".data (by decide) (by decide) (by decide) (by decide)

/-! ## The unfenced recovery path and the claim's span description -/

/-- The claim's description of the unfenced recovery: the span from the
first left brace of the text to the last right brace lying after it,
kept verbatim. -/
def spanSpec (cs : List Char) : Option (List Char) :=
  match cs.dropWhile (fun c => !(c == lb)) with
  | [] => none
  | l :: rest =>
    match rest.reverse.dropWhile (fun c => !(c == rb)) with
    | [] => none
    | r :: revBody => some (l :: (revBody.reverse ++ [r]))

theorem dropWhile_head_false {α : Type} (p : α → Bool) (l : List α) {a : α}
    {tl : List α} (h : l.dropWhile p = a :: tl) : p a = false := by
  induction l with
  | nil => cases h
  | cons x xs ih =>
    rw [List.dropWhile_cons] at h
    cases hp : p x with
    | true =>
      rw [hp] at h
      simp at h
      exact ih h
    | false =>
      rw [hp] at h
      simp at h
      rw [← h.1]
      exact hp

theorem afterFirstLb_eq (cs : List Char) :
    afterFirstLb cs
      = match cs.dropWhile (fun c => !(c == lb)) with
        | [] => none
        | _ :: rest => some rest := by
  induction cs with
  | nil => rfl
  | cons c cs ih =>
    cases hc : (c == lb) with
    | true => simp [afterFirstLb, List.dropWhile_cons, hc]
    | false =>
      rw [afterFirstLb, List.dropWhile_cons]
      simp only [hc, Bool.not_false, if_true]
      exact ih

theorem greedyClose_eq (ds : List Char) :
    greedyClose ds
      = match ds.reverse.dropWhile (fun c => !(c == rb)) with
        | [] => none
        | _ :: revBody => some revBody.reverse := by
  induction ds with
  | nil => rfl
  | cons d ds ih =>
    rw [greedyClose, ih, List.reverse_cons, List.dropWhile_append]
    cases hd : ds.reverse.dropWhile (fun c => !(c == rb)) with
    | nil =>
      cases hdr : (d == rb) with
      | true => simp [hd, hdr, List.dropWhile_cons]
      | false => simp [hd, hdr, List.dropWhile_cons]
    | cons r revBody => simp [hd]

theorem spanSpec_cons {cs : List Char} {l : Char} {rest : List Char}
    (hd : cs.dropWhile (fun c => !(c == lb)) = l :: rest) :
    spanSpec cs
      = match rest.reverse.dropWhile (fun c => !(c == rb)) with
        | [] => none
        | r :: revBody => some (l :: (revBody.reverse ++ [r])) := by
  unfold spanSpec
  rw [hd]

theorem directMatch_eq_spanSpec (cs : List Char) : directMatch cs = spanSpec cs := by
  cases hd : cs.dropWhile (fun c => !(c == lb)) with
  | nil =>
    unfold directMatch spanSpec
    rw [afterFirstLb_eq, hd]
    rfl
  | cons l rest =>
    have hl : l = lb := by
      have h := dropWhile_head_false (fun c => !(c == lb)) cs hd
      simpa using h
    unfold directMatch
    rw [afterFirstLb_eq, hd]
    show ((greedyClose rest).map fun body => lb :: body ++ [rb]) = spanSpec cs
    rw [spanSpec_cons hd, greedyClose_eq]
    cases he : rest.reverse.dropWhile (fun c => !(c == rb)) with
    | nil => rfl
    | cons r revBody =>
      have hr : r = rb := by
        have h := dropWhile_head_false (fun c => !(c == rb)) rest.reverse he
        simpa using h
      rw [hl, hr]
      rfl

/-- C5: for every input text with no fenced code-block match, `extractJson`
returns the span from the first left brace to the last right brace when the
text contains a left brace with a right brace after it, and returns the
original text unchanged when no such span exists; the function is total
(defined on every string), so it never throws. -/
theorem C5_unfenced_fallback (text : String) (h : scanFenced text.data = none) :
    extractJson text
      = match spanSpec text.data with
        | some g => String.mk g
        | none => text := by
  unfold extractJson
  rw [h, directMatch_eq_spanSpec]

theorem C5_unfenced_fallback_witness :
    extractJson "a \x7bb\x7d c \x7bd\x7d e" = "\x7bb\x7d c \x7bd\x7d" ∧
      extractJson "no json here" = "no json here" := by
  constructor
  · rw [C5_unfenced_fallback "a \x7bb\x7d c \x7bd\x7d e" (by decide)]
    decide
  · rw [C5_unfenced_fallback "no json here" (by decide)]
    decide

/-! ## Refinement loop (src/ui.ts, replLoop) -/

/-- Observable outcome and interaction trace of one `replLoop` run over
explicit input streams: `accepted = some b` is the returned record's
`accepted` field, `accepted = none` means the loop is blocked on an
exhausted input stream; the counts say how many displays, confirm prompts,
feedback prompts and `regenerate` invocations happened. -/
structure ReplTrace (T : Type) where
  accepted : Option Bool
  value : T
  displays : Nat
  confirmPrompts : Nat
  feedbackPrompts : Nat
  regenCalls : Nat
deriving DecidableEq

/-- Embedding of `replLoop` (src/ui.ts lines 6-57).  The interactive
answers are explicit streams: `confirms` the yes/no answers, `feedbacks`
the free-text answers, `regens` the successive results of the
`options.regenerate` calls (`none` embeds a `null` result).  Every
iteration displays the current value; with `skipConfirmation` set the loop
returns accepted at once; an accepting confirm returns accepted; on
rejection, feedback that trims to empty returns not-accepted; otherwise
the next regeneration result replaces the value when non-null and is
discarded when null, and the loop repeats. -/
def replLoop {T : Type} (skipConfirmation : Bool) :
    List Bool → List String → List (Option T) → T → ReplTrace T
  | confirms, feedbacks, regens, current =>
    if skipConfirmation then ⟨some true, current, 1, 0, 0, 0⟩
    else
      match confirms with
      | [] => ⟨none, current, 1, 0, 0, 0⟩
      | accept :: confirms' =>
        if accept then ⟨some true, current, 1, 1, 0, 0⟩
        else
          match feedbacks with
          | [] => ⟨none, current, 1, 1, 0, 0⟩
          | feedback :: feedbacks' =>
            if jsTrim feedback = "" then ⟨some false, current, 1, 1, 1, 0⟩
            else
              match regens with
              | [] => ⟨none, current, 1, 1, 1, 0⟩
              | newValue :: regens' =>
                let next :=
                  match newValue with
                  | some v => v
                  | none => current
                let rest := replLoop skipConfirmation confirms' feedbacks' regens' next
                ⟨rest.accepted, rest.value, 1 + rest.displays, 1 + rest.confirmPrompts,
                  1 + rest.feedbackPrompts, 1 + rest.regenCalls⟩

/-- C9: with skipConfirmation (autoAccept) set, `replLoop` returns accepted
with the initial value after a single display, consuming no confirm
prompt, no feedback prompt and no `regenerate` call — for every initial
value and every configuration of the input streams. -/
theorem C9_auto_accept {T : Type} (initial : T) (confirms : List Bool)
    (feedbacks : List String) (regens : List (Option T)) :
    replLoop true confirms feedbacks regens initial
      = ⟨some true, initial, 1, 0, 0, 0⟩ := by
  unfold replLoop
  rfl

/-- C8: if the user rejects the confirm prompt and then supplies feedback
that is empty or whitespace-only after trimming, `replLoop` returns
not-accepted with the initial value, without any `regenerate` call. -/
theorem C8_cancel_on_empty_feedback {T : Type} (initial : T) (f : String)
    (confirms : List Bool) (feedbacks : List String) (regens : List (Option T))
    (hf : jsTrim f = "") :
    replLoop false (false :: confirms) (f :: feedbacks) regens initial
      = ⟨some false, initial, 1, 1, 1, 0⟩ := by
  simp [replLoop, hf]

theorem C8_cancel_on_empty_feedback_witness :
    replLoop false [false] ["  "] ([] : List (Option Nat)) 0
      = ⟨some false, 0, 1, 1, 1, 0⟩ :=
  C8_cancel_on_empty_feedback 0 "  " [] [] [] (by decide)

/-- C7: regeneration failure is never fatal and never replaces the current
artifact.  First part: a rejected confirm followed by non-empty feedback
whose `regenerate` call returns the absence marker continues the loop at
the display-and-confirm step with the previous value unchanged — the trace
is the continuation's trace with one more display, confirm prompt,
feedback prompt and regenerate call.  Second part: when every regeneration
result in the stream is the absence marker, the value carried through the
whole loop stays the initial value whatever the confirm and feedback
answers are — replacement can only come from a successful regeneration. -/
theorem C7_regen_failure_atomic {T : Type} :
    (∀ (current : T) (f : String) (confirms : List Bool) (feedbacks : List String)
        (regens : List (Option T)), ¬ jsTrim f = "" →
        replLoop false (false :: confirms) (f :: feedbacks) (none :: regens) current
          = ⟨(replLoop false confirms feedbacks regens current).accepted,
             (replLoop false confirms feedbacks regens current).value,
             1 + (replLoop false confirms feedbacks regens current).displays,
             1 + (replLoop false confirms feedbacks regens current).confirmPrompts,
             1 + (replLoop false confirms feedbacks regens current).feedbackPrompts,
             1 + (replLoop false confirms feedbacks regens current).regenCalls⟩) ∧
    (∀ (current : T) (confirms : List Bool) (feedbacks : List String)
        (regens : List (Option T)), (∀ r ∈ regens, r = none) →
        (replLoop false confirms feedbacks regens current).value = current) := by
  constructor
  · intro current f confirms feedbacks regens hf
    simp [replLoop, hf]
  · intro current confirms
    revert current
    induction confirms with
    | nil => intro current feedbacks regens _; rfl
    | cons a confirms ih =>
      intro current feedbacks regens hr
      cases a with
      | true => rfl
      | false =>
        cases feedbacks with
        | nil => rfl
        | cons f fs =>
          by_cases hf : jsTrim f = ""
          · simp [replLoop, hf]
          · cases regens with
            | nil => simp [replLoop, hf]
            | cons r rs =>
              have hrn : r = none := hr r (List.mem_cons_self _ _)
              subst hrn
              have hrs : ∀ x ∈ rs, x = none := fun x hx => hr x (List.mem_cons_of_mem _ hx)
              simp only [replLoop, hf, if_false, if_neg hf]
              exact ih current fs rs hrs

theorem C7_regen_failure_atomic_witness :
    replLoop false [false, true] ["make it shorter"] [(none : Option Nat)] 7
        = ⟨some true, 7, 2, 2, 1, 1⟩ ∧
      (replLoop false [false] ["nonempty"] [(none : Option Nat)] 7).value = 7 := by
  constructor
  · rw [(@C7_regen_failure_atomic Nat).1 7 "make it shorter" [true] [] [] (by decide)]
    decide
  · exact (@C7_regen_failure_atomic Nat).2 7 [false] ["nonempty"] [none] (by decide)

/-! ## PR payload validation (src/commands/pr.ts) -/

/-- The two distinct fatal errors of the PR generation turn's payload
handling. -/
inductive PrError
  | malformedPayload
  | missingField
deriving DecidableEq

/-- Shape of a deserialized PR payload before validation: each field may
be absent. -/
structure PrShape where
  title : Option String
  body : Option String
  labels : Option (List String)
deriving DecidableEq

/-- JS truthiness of an optional string field: absent or empty is falsy. -/
def truthyField : Option String → Bool
  | some s => !(s == "")
  | none => false

/-- Embedding of the validation steps of `raisePRCommand`
(src/commands/pr.ts lines 219-230).  The argument is the outcome of
`JSON.parse` on the recovered text, `none` when deserialization threw: a
parse failure raises the malformed-payload error, a payload lacking a
truthy `title` or `body` raises the missing-field error, and otherwise the
payload is the valid artifact. -/
def validatePrPayload (parsed : Option PrShape) : Except PrError PrShape :=
  match parsed with
  | none => Except.error PrError.malformedPayload
  | some p =>
    if !(truthyField p.title) || !(truthyField p.body) then
      Except.error PrError.missingField
    else Except.ok p

/-- Embedding of the parse-and-validate tail of `generatePrContent`
(src/commands/pr.ts lines 252-259): the same checks, with both failures
collapsed to the absence marker (a regeneration failure). -/
def generatePrContentParse (parsed : Option PrShape) : Option PrShape :=
  match validatePrPayload parsed with
  | Except.ok p => some p
  | Except.error _ => none

/-- The effective label list of a validated payload: the code reads
`labels` only through `data.labels?.length ? ... : ...` guards, treating
an absent list as the empty sequence. -/
def prLabels (p : PrShape) : List String := p.labels.getD []

/-- C6: a payload missing `body` (the parse of a title-only object) — and,
universally, any payload whose title or body is absent or empty — fails
with the missing-field error; the parse of an object with both fields
present validates to an artifact whose effective label list defaults to
the empty sequence; an input that does not deserialize at all fails with
the malformed-payload error; and the regeneration path collapses the
failure to the absence marker. -/
theorem C6_pr_payload_validation :
    validatePrPayload (some ⟨some "x", none, none⟩) = Except.error PrError.missingField ∧
    validatePrPayload (some ⟨some "x", some "y", none⟩) = Except.ok ⟨some "x", some "y", none⟩ ∧
    prLabels ⟨some "x", some "y", none⟩ = [] ∧
    validatePrPayload none = Except.error PrError.malformedPayload ∧
    (∀ p : PrShape, (truthyField p.title = false ∨ truthyField p.body = false) →
      validatePrPayload (some p) = Except.error PrError.missingField) ∧
    generatePrContentParse (some ⟨some "x", none, none⟩) = none := by
  refine ⟨rfl, rfl, rfl, rfl, ?_, rfl⟩
  intro p h
  rcases h with h | h <;> simp [validatePrPayload, h]

theorem C6_pr_payload_validation_witness :
    validatePrPayload (some ⟨none, some "y", none⟩) = Except.error PrError.missingField :=
  C6_pr_payload_validation.2.2.2.2.1 ⟨none, some "y", none⟩ (Or.inl (by decide))

/-! ## Commit generation fallback order (src/commands/pr.ts, commitCommand) -/

/-- Embedding of the first generation turn's message selection in
`commitCommand` (lines 498-502 of the concatenated source): `capture` is
the onStep capture, `streamed` the accumulated onDelta buffer; when the
capture is empty the choice is
`streamedMessage.trim() || extracted || ""`, and an empty final choice is
the fatal empty-generation error. -/
def commitCommandMessage (capture streamed : String)
    (conversation : List ConversationTurn) : Except String String :=
  let commitMessage :=
    if capture = "" then
      jsOrS (jsTrim streamed) ((extractLastAssistantMessage conversation).getD "")
    else capture
  if commitMessage = "" then
    Except.error "Failed to extract commit message from agent response"
  else Except.ok commitMessage

/-- Embedding of the streaming regeneration's selection in `commitCommand`
(lines 595-596):
`finalMessage = newMessage || streamedNewMessage.trim() || extracted || finalMessage`. -/
def commitRegenMessage (newMessage streamedNew : String)
    (regenConversation : List ConversationTurn) (finalMessage : String) : String :=
  jsOrS newMessage (jsOrS (jsTrim streamedNew)
    (jsOrS ((extractLastAssistantMessage regenConversation).getD "") finalMessage))

/-- C10: in the commit command's generation turn and in its streaming
regenerations, when the onStep capture is empty the trimmed streamed
onDelta buffer takes precedence over the Extractor result (whatever the
completed conversation holds); the Extractor scan is consulted only when
the capture and the streamed buffer are both empty; and on regeneration,
when all three sources are empty the previous message is kept. -/
theorem C10_generation_fallback_order :
    (∀ (streamed : String) (conversation : List ConversationTurn),
        ¬ jsTrim streamed = "" →
        commitCommandMessage "" streamed conversation = Except.ok (jsTrim streamed)) ∧
    (∀ (streamed : String) (conversation : List ConversationTurn) (t : String),
        jsTrim streamed = "" → extractLastAssistantMessage conversation = some t →
        ¬ t = "" →
        commitCommandMessage "" streamed conversation = Except.ok t) ∧
    (∀ (streamed : String) (conversation : List ConversationTurn),
        jsTrim streamed = "" → extractLastAssistantMessage conversation = none →
        commitCommandMessage "" streamed conversation
          = Except.error "Failed to extract commit message from agent response") ∧
    (∀ (streamedNew : String) (regenConversation : List ConversationTurn)
        (finalMessage : String), ¬ jsTrim streamedNew = "" →
        commitRegenMessage "" streamedNew regenConversation finalMessage
          = jsTrim streamedNew) ∧
    (∀ (regenConversation : List ConversationTurn) (finalMessage t : String)
        (streamedNew : String),
        jsTrim streamedNew = "" → extractLastAssistantMessage regenConversation = some t →
        ¬ t = "" →
        commitRegenMessage "" streamedNew regenConversation finalMessage = t) ∧
    (∀ (streamedNew : String) (regenConversation : List ConversationTurn)
        (finalMessage : String),
        jsTrim streamedNew = "" → extractLastAssistantMessage regenConversation = none →
        commitRegenMessage "" streamedNew regenConversation finalMessage = finalMessage) := by
  refine ⟨?_, ?_, ?_, ?_, ?_, ?_⟩
  · intro streamed conversation h
    simp [commitCommandMessage, jsOrS, h]
  · intro streamed conversation t h1 h2 h3
    simp [commitCommandMessage, jsOrS, h1, h2, h3]
  · intro streamed conversation h1 h2
    simp [commitCommandMessage, jsOrS, h1, h2]
  · intro streamedNew regenConversation finalMessage h
    simp [commitRegenMessage, jsOrS, h]
  · intro regenConversation finalMessage t streamedNew h1 h2 h3
    simp [commitRegenMessage, jsOrS, h1, h2, h3]
  · intro streamedNew regenConversation finalMessage h1 h2
    simp [commitRegenMessage, jsOrS, h1, h2]

theorem C10_generation_fallback_order_witness :
    commitCommandMessage "" " streamed "
        [⟨"agentConversationTurn",
          some ⟨some [⟨"assistantMessage", some ⟨some "extracted"⟩⟩]⟩⟩]
        = Except.ok "streamed" ∧
      commitCommandMessage "" "  "
        [⟨"agentConversationTurn",
          some ⟨some [⟨"assistantMessage", some ⟨some "extracted"⟩⟩]⟩⟩]
        = Except.ok "extracted" ∧
      commitRegenMessage "" "  " [] "previous message" = "previous message" := by
  refine ⟨?_, ?_, ?_⟩
  · have h := C10_generation_fallback_order.1 " streamed "
      [⟨"agentConversationTurn",
        some ⟨some [⟨"assistantMessage", some ⟨some "extracted"⟩⟩]⟩⟩] (by decide)
    rw [h]
    exact congrArg Except.ok (by decide)
  · exact C10_generation_fallback_order.2.1 "  "
      [⟨"agentConversationTurn",
        some ⟨some [⟨"assistantMessage", some ⟨some "extracted"⟩⟩]⟩⟩]
      "extracted" (by decide) (by decide) (by decide)
  · exact C10_generation_fallback_order.2.2.2.2.2 "  " [] "previous message"
      (by decide) (by decide)

end Rivet
